import Mathlib

/-!
Shallow embedding of the Merkle tree implementation in src/src/tree.ts
of this repository, together with models of the two value types that
tree.ts imports. The files leaf.ts and node.ts are not part of the
repository snapshot, so Leaf and Node are modelled from the
specification; everything else is translated from tree.ts.
-/

namespace MerkleSpec

/-- Modelled from the spec: leaf.ts is absent from the repository
snapshot. Spec section 3 and 4.1: a Leaf carries a fixed-size
commitment value derived from the application payload, and leaves are
orderable and hashable through that value. The commitment value is
modelled as a natural number. -/
structure Leaf where
  value : Nat
deriving DecidableEq

/-- Modelled from the spec: section 9 states that the source used a
boolean is-greater-or-equal predicate on the leaf order as the sort
key, which is the `a.gte(b)` call in tree.ts line 18. -/
def Leaf.gte (a b : Leaf) : Bool := decide (b.value ≤ a.value)

/-- Modelled from the spec: node.ts is absent from the repository
snapshot. Spec section 4.2: a Node is a fixed-size hash value; the
combine operation deterministically derives a parent from two children
in the given argument order and is order-sensitive. The hash is
modelled as the free pairing, with `val` embedding a leaf commitment
value and `comb` the parent of two children. -/
inductive Node where
  | val (v : Nat)
  | comb (l r : Node)
deriving DecidableEq

instance : Inhabited Node := ⟨Node.val 0⟩

/-- Modelled from the spec: the combine operation of section 4.2, named
`hash` in tree.ts, with left = self and right = the argument. -/
def Node.hash (a b : Node) : Node := Node.comb a b

/-- Modelled from the spec: the equality test of section 4.2, named
`eq` in tree.ts, structural equality on the underlying value. -/
def Node.eq (a b : Node) : Bool := decide (a = b)

/-- The comparison function `(a, b) => a.gte(b)` passed to
Array.prototype.sort in tree.ts line 18. ECMAScript coerces the boolean
result with ToNumber, so the sort sees 1 when `a.gte(b)` holds and 0
otherwise. -/
def sortCompare (a b : Leaf) : Int := if a.gte b then 1 else 0

/-- The comparison function of tree.ts line 18 never returns a negative
number. -/
theorem sortCompare_nonneg (a b : Leaf) : 0 ≤ sortCompare a b := by
  unfold sortCompare
  split <;> decide

/-- `leaves.sort((a, b) => a.gte(b))` from tree.ts line 18 under the
Node.js (V8) semantics the repository runs on. Because the comparison
function never returns a negative number (`sortCompare_nonneg`), the
run detection of the TimSort used by V8 classifies the whole array as
one ascending run (a run is extended while the comparison result is
nonnegative) and no element is ever moved, so the call returns the
array in its input order. ECMAScript leaves the result order
implementation-defined for an inconsistent comparison function such as
this one; the Node.js behaviour is the one modelled. -/
def jsSortGte (l : List Leaf) : List Leaf := l

/-- The Tree state: the `leaves` field of tree.ts line 11. -/
structure Tree where
  leaves : List Leaf

/-- The constructor, tree.ts lines 17 to 19:
`this.leaves = leaves.sort((a, b) => a.gte(b))`. -/
def Tree.new (leaves : List Leaf) : Tree := ⟨jsSortGte leaves⟩

/-- The constructor together with the caller view of its argument.
Array.prototype.sort sorts in place and returns the very array it was
called on, so after construction the stored `leaves` field and the
array the caller passed are the same array object. The pair returned
here is (the constructed tree, the contents of the caller array after
the call); the sharing of the one array object is modelled by both
components being the same sorted list. -/
def Tree.newShared (ls : List Leaf) : Tree × List Leaf :=
  (⟨jsSortGte ls⟩, jsSortGte ls)

/-- The two errors thrown by tree.ts: `emptyRoot` is the Error of
tree.ts line 28 (cannot generate merkle root from empty tree) and
`emptyProve` the Error of tree.ts line 58 (cannot find prove from
empty tree). -/
inductive TreeError where
  | emptyRoot
  | emptyProve
deriving DecidableEq

/-- One execution of the for loop inside the while loop of the root
getter (tree.ts lines 34 to 40), started at index `i`: while
`i < nodes.length`, read `nodes[i]` and `nodes[i + 1]`; when
`nodes[i + 1]` is undefined push `nodes[i]` and break, otherwise push
`nodes[i].hash(nodes[i + 1])` and step `i` by two. An out-of-bounds
read is `none`, exactly the undefined of JavaScript. The fuel argument
only bounds the recursion depth and is never exhausted when it starts
at `nodes.length`. -/
def rootLevelAux : Nat → List Node → Nat → List Node
  | 0, _, _ => []
  | fuel + 1, nodes, i =>
    match nodes[i]?, nodes[i + 1]? with
    | some a, some b => a.hash b :: rootLevelAux fuel nodes (i + 2)
    | some a, none => [a]
    | none, _ => []

/-- The full inner for loop of the root getter, started at index 0. -/
def rootLevel (nodes : List Node) : List Node :=
  rootLevelAux nodes.length nodes 0

/-- The while loop of the root getter (tree.ts lines 32 to 42): replace
`nodes` by the reduced level while more than one node remains. The fuel
bounds the number of iterations; `nodes.length` iterations always
suffice because every iteration strictly shortens the list. -/
def rootLoopAux : Nat → List Node → List Node
  | 0, nodes => nodes
  | fuel + 1, nodes =>
    if 1 < nodes.length then rootLoopAux fuel (rootLevel nodes) else nodes

/-- The root getter, tree.ts lines 24 to 44. It maps every leaf to a
bottom level node, throws on an empty tree, returns the single node of
a one-leaf tree, and otherwise runs the while loop and returns the one
remaining node. The source reads `nodes[0]` at the end; the loop keeps
the list nonempty, so the `headD` default is never used. -/
def Tree.root (t : Tree) : Except TreeError Node :=
  let nodes := t.leaves.map (fun leaf => Node.val leaf.value)
  if nodes.length = 0 then Except.error TreeError.emptyRoot
  else if nodes.length = 1 then Except.ok (nodes.headD default)
  else Except.ok ((rootLoopAux nodes.length nodes).headD default)

/-- The level reduction exactly as the spec words it in section 4.3:
scan left to right, combine adjacent pairs, and carry an unpaired last
node forward unchanged (it is not duplicated and not combined with
itself). Used to state the refinement claims about the index-based
loops of the source. -/
def hashLevel : List Node → List Node
  | [] => []
  | [a] => [a]
  | a :: b :: rest => a.hash b :: hashLevel rest

/-- `Math.ceil(Math.log2(nodes.length))` from tree.ts line 55, modelled
exactly as the ceiling of the base two logarithm (the floating point
evaluation in the source is exact for every realistic leaf count). The
fuel of the auxiliary recursion starts at `n`, which always suffices
because the argument at least halves at every step. -/
def ceilLog2Aux : Nat → Nat → Nat
  | 0, _ => 0
  | fuel + 1, n => if n ≤ 1 then 0 else ceilLog2Aux fuel ((n + 1) / 2) + 1

/-- The ceiling of the base two logarithm, see `ceilLog2Aux`. -/
def ceilLog2 (n : Nat) : Nat := ceilLog2Aux n n

/-- `nodes.findIndex((node) => node.eq(nodeProved))` from tree.ts line
67: the index of the first node equal to the target, and -1 when there
is none. -/
def jsFindIndex (nodes : List Node) (target : Node) : Int :=
  match nodes.findIdx? (fun node => node.eq target) with
  | some i => (i : Int)
  | none => -1

/-- A JavaScript array read `nodes[i]` at a possibly negative index:
undefined, that is `none`, outside the array bounds. -/
def jsGet (nodes : List Node) (i : Int) : Option Node :=
  if i < 0 then none else nodes[i.toNat]?

/-- Step 2 of proof generation, tree.ts lines 69 to 74: when the found
index is even and a node exists at the next index the sibling is that
right neighbour, otherwise the sibling is the entry at the index minus
one, which is undefined when that position lies outside the array.
JavaScript remainder truncates towards zero, so the missing index -1
satisfies -1 % 2 = -1 and takes the second branch; `Int.tmod` is that
remainder. -/
def findSibling (nodes : List Node) (provedIdx : Int) : Option Node :=
  if provedIdx.tmod 2 = 0 ∧ provedIdx + 1 < (nodes.length : Int) then
    jsGet nodes (provedIdx + 1)
  else
    jsGet nodes (provedIdx - 1)

/-- Step 4 of proof generation, tree.ts lines 83 to 88: build the next
level; when `i + 1 < nodes.length` push the pair hash, else push
`nodes[i]` alone; there is no break, the loop simply ends when `i`
passes the length. Fuel as in `rootLevelAux`. -/
def proveLevelAux : Nat → List Node → Nat → List Node
  | 0, _, _ => []
  | fuel + 1, nodes, i =>
    match nodes[i]?, nodes[i + 1]? with
    | some a, some b => a.hash b :: proveLevelAux fuel nodes (i + 2)
    | some a, none => a :: proveLevelAux fuel nodes (i + 2)
    | none, _ => []

/-- The full step 4 loop of proof generation, started at index 0. -/
def proveLevel (nodes : List Node) : List Node :=
  proveLevelAux nodes.length nodes 0

/-- The main for loop of prove, tree.ts lines 66 to 89, one recursive
step per remaining level: find the index of the node under proof,
select the sibling, and when a sibling was found push it onto the proof
and advance the node under proof by hashing the sibling onto it; then
rebuild the node list for the next level and continue. -/
def proveLoop : Nat → List Node → Node → List Node → List Node
  | 0, _, _, proof => proof
  | levels + 1, nodes, nodeProved, proof =>
    let provedIdx := jsFindIndex nodes nodeProved
    match findSibling nodes provedIdx with
    | some sibling =>
        proveLoop levels (proveLevel nodes) (nodeProved.hash sibling)
          (proof ++ [sibling])
    | none => proveLoop levels (proveLevel nodes) nodeProved proof

/-- prove, tree.ts lines 50 to 92: map the leaves to bottom level
nodes, throw on an empty tree, return the empty proof for a one-leaf
tree, and otherwise run the level loop `Math.ceil(Math.log2(n))`
times. -/
def Tree.prove (t : Tree) (leaf : Leaf) : Except TreeError (List Node) :=
  let nodes := t.leaves.map (fun leaf => Node.val leaf.value)
  let nodeProved := Node.val leaf.value
  let merkleTreeLevel := ceilLog2 nodes.length
  if nodes.length = 0 then Except.error TreeError.emptyProve
  else if nodes.length = 1 then Except.ok []
  else Except.ok (proveLoop merkleTreeLevel nodes nodeProved [])

/-- verify, tree.ts lines 100 to 104: fold the hash over the proof
entries starting from the candidate leaf node, then compare against the
root with `this.root.eq(node)`; the error thrown by the root getter
propagates. -/
def Tree.verify (t : Tree) (leaf : Leaf) (proof : List Node) :
    Except TreeError Bool :=
  let node := proof.foldl Node.hash (Node.val leaf.value)
  match t.root with
  | Except.ok r => Except.ok (r.eq node)
  | Except.error e => Except.error e

/-- Modelled from the spec: the number of levels at which the proved
node actually has a pairing partner, following sections 4.3 and 8. At a
level holding `n` nodes the node at position `p` has a partner unless
it is carried up unpaired, that is unless `p` is even and is the last
position; the node moves to position `p / 2` of the next level, which
holds `(n + 1) / 2` nodes. -/
def partnerLevels : Nat → Nat → Nat → Nat
  | 0, _, _ => 0
  | levels + 1, n, p =>
    (if p % 2 = 1 ∨ p + 1 < n then 1 else 0) +
      partnerLevels levels ((n + 1) / 2) (p / 2)

/-- The ceiling halving map iterated: the length profile of the level
reduction. -/
def ceilHalfIter : Nat → Nat → Nat
  | 0, n => n
  | j + 1, n => ceilHalfIter j ((n + 1) / 2)

/-- One level of the clean reduction has the ceiling half of the input
length. -/
theorem hashLevel_length : ∀ l : List Node, (hashLevel l).length = (l.length + 1) / 2
  | [] => rfl
  | [_] => by simp [hashLevel]
  | _ :: _ :: rest => by
    simp only [hashLevel, List.length_cons, hashLevel_length rest]
    omega

/-- The index-based inner loop of the root getter computes the clean
level reduction of the list from the start index on, whenever the fuel
covers the remaining entries. -/
theorem rootLevelAux_hashLevel :
    ∀ (fuel : Nat) (l : List Node) (i : Nat), l.length ≤ i + fuel →
      rootLevelAux fuel l i = hashLevel (l.drop i) := by
  intro fuel
  induction fuel with
  | zero =>
    intro l i h
    rw [List.drop_eq_nil_of_le (by omega)]
    rfl
  | succ fuel ih =>
    intro l i h
    by_cases hi : i < l.length
    · by_cases hi2 : i + 1 < l.length
      · rw [List.drop_eq_getElem_cons hi, List.drop_eq_getElem_cons hi2]
        simp only [rootLevelAux, List.getElem?_eq_getElem hi,
          List.getElem?_eq_getElem hi2, hashLevel]
        rw [ih l (i + 2) (by omega)]
      · have hd : l.drop i = [l[i]] := by
          rw [List.drop_eq_getElem_cons hi, List.drop_eq_nil_of_le (by omega)]
        simp only [rootLevelAux, List.getElem?_eq_getElem hi,
          List.getElem?_eq_none (by omega : l.length ≤ i + 1), hd, hashLevel]
    · have hd : l.drop i = [] := List.drop_eq_nil_of_le (by omega)
      simp only [rootLevelAux, List.getElem?_eq_none (by omega : l.length ≤ i), hd,
        hashLevel]

/-- The inner loop of the root getter is the clean level reduction. -/
theorem rootLevel_hashLevel (l : List Node) : rootLevel l = hashLevel l := by
  rw [rootLevel, rootLevelAux_hashLevel l.length l 0 (by omega), List.drop_zero]

/-- The step 4 loop of prove computes the clean level reduction of the
list from the start index on, whenever the fuel covers the remaining
entries. -/
theorem proveLevelAux_hashLevel :
    ∀ (fuel : Nat) (l : List Node) (i : Nat), l.length ≤ i + fuel →
      proveLevelAux fuel l i = hashLevel (l.drop i) := by
  intro fuel
  induction fuel with
  | zero =>
    intro l i h
    rw [List.drop_eq_nil_of_le (by omega)]
    rfl
  | succ fuel ih =>
    intro l i h
    by_cases hi : i < l.length
    · by_cases hi2 : i + 1 < l.length
      · rw [List.drop_eq_getElem_cons hi, List.drop_eq_getElem_cons hi2]
        simp only [proveLevelAux, List.getElem?_eq_getElem hi,
          List.getElem?_eq_getElem hi2, hashLevel]
        rw [ih l (i + 2) (by omega)]
      · have hd : l.drop i = [l[i]] := by
          rw [List.drop_eq_getElem_cons hi, List.drop_eq_nil_of_le (by omega)]
        have hrec : proveLevelAux fuel l (i + 2) = hashLevel (l.drop (i + 2)) :=
          ih l (i + 2) (by omega)
        rw [List.drop_eq_nil_of_le (by omega : l.length ≤ i + 2)] at hrec
        simp only [proveLevelAux, List.getElem?_eq_getElem hi,
          List.getElem?_eq_none (by omega : l.length ≤ i + 1), hd, hashLevel, hrec]
    · have hd : l.drop i = [] := List.drop_eq_nil_of_le (by omega)
      simp only [proveLevelAux, List.getElem?_eq_none (by omega : l.length ≤ i), hd,
        hashLevel]

/-- The step 4 loop of prove is the clean level reduction. -/
theorem proveLevel_hashLevel (l : List Node) : proveLevel l = hashLevel l := by
  rw [proveLevel, proveLevelAux_hashLevel l.length l 0 (by omega), List.drop_zero]

/-- The length profile of iterating the level reduction. -/
theorem hashLevel_iterate_length :
    ∀ (j : Nat) (l : List Node), (hashLevel^[j] l).length = ceilHalfIter j l.length := by
  intro j
  induction j with
  | zero => intro l; rfl
  | succ j ih =>
    intro l
    rw [Function.iterate_succ_apply, ih (hashLevel l)]
    simp only [ceilHalfIter, hashLevel_length]

/-- Iterated ceiling halving keeps a positive count positive. -/
theorem ceilHalfIter_pos : ∀ (j n : Nat), 1 ≤ n → 1 ≤ ceilHalfIter j n := by
  intro j
  induction j with
  | zero => intro n hn; simpa [ceilHalfIter] using hn
  | succ j ih =>
    intro n hn
    exact ih ((n + 1) / 2) (by omega)

/-- Iterated ceiling halving of a positive count reaches one exactly
when the exponent covers the count. -/
theorem ceilHalfIter_eq_one_iff :
    ∀ (j n : Nat), 1 ≤ n → (ceilHalfIter j n = 1 ↔ n ≤ 2 ^ j) := by
  intro j
  induction j with
  | zero =>
    intro n hn
    simp only [ceilHalfIter, pow_zero]
    omega
  | succ j ih =>
    intro n hn
    have h2 : (2 : Nat) ^ (j + 1) = 2 ^ j * 2 := pow_succ 2 j
    rw [show ceilHalfIter (j + 1) n = ceilHalfIter j ((n + 1) / 2) from rfl,
      ih ((n + 1) / 2) (by omega)]
    omega

/-- The fuel of `ceilLog2Aux` is irrelevant as long as it covers the
argument. -/
theorem ceilLog2Aux_congr :
    ∀ (fuel fuel' n : Nat), n ≤ fuel → n ≤ fuel' →
      ceilLog2Aux fuel n = ceilLog2Aux fuel' n := by
  intro fuel
  induction fuel with
  | zero =>
    intro fuel' n h h'
    have : n = 0 := by omega
    subst this
    cases fuel' <;> rfl
  | succ fuel ih =>
    intro fuel' n h h'
    by_cases h1 : n ≤ 1
    · cases fuel' with
      | zero =>
        have hn0 : n = 0 := by omega
        subst hn0
        rfl
      | succ fuel'' => simp only [ceilLog2Aux, if_pos h1]
    · cases fuel' with
      | zero => omega
      | succ fuel'' =>
        simp only [ceilLog2Aux, if_neg h1]
        rw [ih fuel'' ((n + 1) / 2) (by omega) (by omega)]

/-- The recursion equation of the ceiling logarithm. -/
theorem ceilLog2_step (n : Nat) (h : 2 ≤ n) :
    ceilLog2 n = ceilLog2 ((n + 1) / 2) + 1 := by
  obtain ⟨m, rfl⟩ : ∃ m, n = m + 1 := ⟨n - 1, by omega⟩
  show ceilLog2Aux (m + 1) (m + 1) = _
  rw [show ceilLog2Aux (m + 1) (m + 1) =
      ceilLog2Aux m ((m + 1 + 1) / 2) + 1 from by
    simp only [ceilLog2Aux, if_neg (by omega : ¬ m + 1 ≤ 1)]]
  rw [ceilLog2]
  rw [ceilLog2Aux_congr m ((m + 1 + 1) / 2) ((m + 1 + 1) / 2) (by omega) (by omega)]

/-- The ceiling logarithm is characterised by the powers of two. -/
theorem ceilLog2_le_iff :
    ∀ (j n : Nat), 1 ≤ n → (ceilLog2 n ≤ j ↔ n ≤ 2 ^ j) := by
  intro j
  induction j with
  | zero =>
    intro n hn
    by_cases h1 : n ≤ 1
    · have : n = 1 := by omega
      subst this
      simp [ceilLog2, ceilLog2Aux]
    · rw [ceilLog2_step n (by omega)]
      simp only [pow_zero]
      omega
  | succ j ih =>
    intro n hn
    by_cases h1 : n ≤ 1
    · have : n = 1 := by omega
      subst this
      have hp : 1 ≤ 2 ^ (j + 1) := Nat.one_le_pow _ _ (by omega)
      simp only [show ceilLog2 1 = 0 from rfl]
      omega
    · rw [ceilLog2_step n (by omega), Nat.succ_le_succ_iff,
        ih ((n + 1) / 2) (by omega)]
      have h2 : (2 : Nat) ^ (j + 1) = 2 ^ j * 2 := pow_succ 2 j
      omega

/-- Every iteration of the prove loop appends at most one entry. -/
theorem proveLoop_length :
    ∀ (levels : Nat) (nodes : List Node) (nodeProved : Node) (proof : List Node),
      (proveLoop levels nodes nodeProved proof).length ≤ proof.length + levels := by
  intro levels
  induction levels with
  | zero => intro nodes nodeProved proof; simp [proveLoop]
  | succ levels ih =>
    intro nodes nodeProved proof
    rw [proveLoop]
    cases findSibling nodes (jsFindIndex nodes nodeProved) with
    | some sibling =>
      calc (proveLoop levels (proveLevel nodes) (nodeProved.hash sibling)
              (proof ++ [sibling])).length
          ≤ (proof ++ [sibling]).length + levels := ih _ _ _
        _ ≤ proof.length + (levels + 1) := by simp; omega
    | none =>
      calc (proveLoop levels (proveLevel nodes) nodeProved proof).length
          ≤ proof.length + levels := ih _ _ _
        _ ≤ proof.length + (levels + 1) := by omega

/-- The root getter succeeds on every tree that holds at least one
leaf. -/
theorem root_ok (t : Tree) (h : t.leaves ≠ []) : ∃ r, t.root = Except.ok r := by
  have hlen : t.leaves.length ≠ 0 := fun hc => h (List.length_eq_zero.mp hc)
  unfold Tree.root
  simp only [List.length_map]
  rw [if_neg hlen]
  by_cases h1 : t.leaves.length = 1
  · rw [if_pos h1]; exact ⟨_, rfl⟩
  · rw [if_neg h1]; exact ⟨_, rfl⟩

/-- prove succeeds on every tree that holds at least one leaf. -/
theorem prove_ok (t : Tree) (leaf : Leaf) (h : t.leaves ≠ []) :
    ∃ p, t.prove leaf = Except.ok p := by
  have hlen : t.leaves.length ≠ 0 := fun hc => h (List.length_eq_zero.mp hc)
  unfold Tree.prove
  simp only [List.length_map]
  rw [if_neg hlen]
  by_cases h1 : t.leaves.length = 1
  · rw [if_pos h1]; exact ⟨_, rfl⟩
  · rw [if_neg h1]; exact ⟨_, rfl⟩

/-- C1: the round-trip property fails on the code. For the three-leaf
tree with leaf values 1, 2, 3 the leaf with value 3 is in the tree, yet
prove returns the single entry Node(2) (the left neighbour of the
carried-up node, grabbed by the else branch of tree.ts line 73 although
the node is unpaired at that level) and verifying that proof returns
false, while the claim requires true for every leaf in the tree. -/
theorem roundTrip_fails_eval :
    ((⟨3⟩ : Leaf) ∈ (Tree.new [⟨1⟩, ⟨2⟩, ⟨3⟩]).leaves) ∧
    (Tree.new [⟨1⟩, ⟨2⟩, ⟨3⟩]).prove ⟨3⟩ = Except.ok [Node.val 2] ∧
    (Tree.new [⟨1⟩, ⟨2⟩, ⟨3⟩]).verify ⟨3⟩ [Node.val 2] = Except.ok false :=
  ⟨by decide, rfl, rfl⟩

/-- C2: a node carried up unpaired does contribute a proof entry. For
the sorted three-leaf tree with values 1, 2, 3 the claim requires
prove of the third leaf to be the single entry combine(Node 1, Node 2);
the code instead pushes Node(2), the left neighbour taken from the
adjacent pair, at the bottom level. -/
theorem carriedNode_entry_eval :
    (Tree.new [⟨1⟩, ⟨2⟩, ⟨3⟩]).prove ⟨3⟩ = Except.ok [Node.val 2] ∧
    ([Node.val 2] : List Node) ≠ [Node.comb (Node.val 1) (Node.val 2)] :=
  ⟨rfl, by decide⟩

/-- C3: the root is not invariant under permutation of the input list,
because the boolean comparison function makes the sort a no-op under
the modelled Node.js semantics. The two-leaf lists [2, 1] and [1, 2]
are permutations of each other, yet the constructed trees have the
distinct roots combine(Node 2, Node 1) and combine(Node 1, Node 2). -/
theorem root_not_permutation_invariant_eval :
    List.Perm [(⟨2⟩ : Leaf), ⟨1⟩] [⟨1⟩, ⟨2⟩] ∧
    (Tree.new [⟨2⟩, ⟨1⟩]).root = Except.ok (Node.comb (Node.val 2) (Node.val 1)) ∧
    (Tree.new [⟨1⟩, ⟨2⟩]).root = Except.ok (Node.comb (Node.val 1) (Node.val 2)) ∧
    Node.comb (Node.val 2) (Node.val 1) ≠ Node.comb (Node.val 1) (Node.val 2) :=
  ⟨List.Perm.swap _ _ _, rfl, rfl, by decide⟩

/-- C4 counterexample: verify is not total on every tree. On the tree
constructed from the empty leaf list, verify propagates the EmptyTree
error thrown by the root getter instead of returning a boolean. -/
theorem verify_empty_tree_fails :
    (Tree.new []).verify ⟨0⟩ [] = Except.error TreeError.emptyRoot := rfl

/-- C4 amended: on every tree with at least one leaf, verify never
fails: the root getter succeeds with some root r, verify returns the
boolean comparison of r against the fold of combine over the proof
entries started from the candidate leaf node, and it returns true
exactly when that fold equals r. On the empty tree verify fails with
the EmptyTree error of the root getter (see the counterexample). -/
theorem verify_total_on_nonempty (t : Tree) (leaf : Leaf) (proof : List Node)
    (h : t.leaves ≠ []) :
    ∃ r, t.root = Except.ok r ∧
      t.verify leaf proof =
        Except.ok (Node.eq r (proof.foldl Node.hash (Node.val leaf.value))) ∧
      (t.verify leaf proof = Except.ok true ↔
        proof.foldl Node.hash (Node.val leaf.value) = r) := by
  obtain ⟨r, hr⟩ := root_ok t h
  refine ⟨r, hr, ?_, ?_⟩
  · unfold Tree.verify
    rw [hr]
  · unfold Tree.verify
    rw [hr]
    simp [Node.eq, eq_comm]

/-- Witness for C4 amended at the one-leaf tree [1], the leaf 1 and the
empty proof. -/
theorem verify_total_on_nonempty_witness :
    ∃ r, (Tree.new [⟨1⟩]).root = Except.ok r ∧
      (Tree.new [⟨1⟩]).verify ⟨1⟩ [] =
        Except.ok (Node.eq r (List.foldl Node.hash (Node.val (⟨1⟩ : Leaf).value) [])) ∧
      ((Tree.new [⟨1⟩]).verify ⟨1⟩ [] = Except.ok true ↔
        List.foldl Node.hash (Node.val (⟨1⟩ : Leaf).value) [] = r) :=
  verify_total_on_nonempty (Tree.new [⟨1⟩]) ⟨1⟩ [] (by decide)

/-- C5: the inner loop of the root getter is exactly the pairwise
reduction with the odd-node carry-up (combine node i with node i + 1
when the pair exists, carry an unpaired last node forward unchanged,
never duplicated and never combined with itself), and for a sorted
three-leaf input [a, b, c] the root is
combine(combine(Node a, Node b), Node c). -/
theorem root_pairwise_reduction :
    (∀ nodes : List Node, rootLevel nodes = hashLevel nodes) ∧
    ∀ a b c : Nat, a ≤ b → b ≤ c →
      (Tree.new [⟨a⟩, ⟨b⟩, ⟨c⟩]).root =
        Except.ok (Node.comb (Node.comb (Node.val a) (Node.val b)) (Node.val c)) := by
  refine ⟨rootLevel_hashLevel, ?_⟩
  intro a b c _ _
  rfl

/-- Witness for C5 at the empty node list and the sorted leaf values
1, 2, 3. -/
theorem root_pairwise_reduction_witness :
    rootLevel [] = hashLevel [] ∧
    (Tree.new [⟨1⟩, ⟨2⟩, ⟨3⟩]).root =
      Except.ok (Node.comb (Node.comb (Node.val 1) (Node.val 2)) (Node.val 3)) :=
  ⟨root_pairwise_reduction.1 [],
    root_pairwise_reduction.2 1 2 3 (by decide) (by decide)⟩

/-- C6: root and prove fail exactly on the empty leaf sequence, with
the respective EmptyTree errors; on a nonempty leaf sequence neither
fails. The embedding is pure, so neither operation touches the stored
leaf list. -/
theorem empty_tree_errors (t : Tree) :
    ((∃ e, t.root = Except.error e) ↔ t.leaves = []) ∧
    (t.leaves = [] → t.root = Except.error TreeError.emptyRoot) ∧
    ∀ leaf : Leaf,
      ((∃ e, t.prove leaf = Except.error e) ↔ t.leaves = []) ∧
      (t.leaves = [] → t.prove leaf = Except.error TreeError.emptyProve) := by
  refine ⟨⟨?_, ?_⟩, ?_, fun leaf => ⟨⟨?_, ?_⟩, ?_⟩⟩
  · rintro ⟨e, he⟩
    by_contra hne
    obtain ⟨r, hr⟩ := root_ok t hne
    rw [hr] at he
    exact Except.noConfusion he
  · intro hnil
    obtain ⟨ls⟩ := t
    simp only at hnil
    subst hnil
    exact ⟨TreeError.emptyRoot, rfl⟩
  · intro hnil
    obtain ⟨ls⟩ := t
    simp only at hnil
    subst hnil
    rfl
  · rintro ⟨e, he⟩
    by_contra hne
    obtain ⟨p, hp⟩ := prove_ok t leaf hne
    rw [hp] at he
    exact Except.noConfusion he
  · intro hnil
    obtain ⟨ls⟩ := t
    simp only at hnil
    subst hnil
    exact ⟨TreeError.emptyProve, rfl⟩
  · intro hnil
    obtain ⟨ls⟩ := t
    simp only at hnil
    subst hnil
    rfl

/-- Witness for C6 at the tree built from the empty list. -/
theorem empty_tree_errors_witness :
    (Tree.new []).root = Except.error TreeError.emptyRoot ∧
    (Tree.new []).prove ⟨5⟩ = Except.error TreeError.emptyProve :=
  ⟨(empty_tree_errors (Tree.new [])).2.1 rfl,
    ((empty_tree_errors (Tree.new [])).2.2 ⟨5⟩).2 rfl⟩

/-- C7: a tree with exactly one leaf has that leaf node as its root
with no combination performed, the empty proof for that leaf, and the
empty proof verifies. -/
theorem single_leaf_identity (leaf : Leaf) :
    (Tree.new [leaf]).root = Except.ok (Node.val leaf.value) ∧
    (Tree.new [leaf]).prove leaf = Except.ok [] ∧
    (Tree.new [leaf]).verify leaf [] = Except.ok true := by
  refine ⟨rfl, rfl, ?_⟩
  unfold Tree.verify
  simp [Tree.root, Tree.new, jsSortGte, Node.eq]

/-- C8 counterexample: the proof length does not equal the number of
levels at which the proved node actually had a pairing partner. In the
four-leaf tree with values 1, 2, 3, 4 the leaf with value 2 sits at
position 1 and has a partner at both levels, but the generated proof
has a single entry: the node under proof is advanced with the operand
order swapped at the odd position (tree.ts line 77 hashes the left
sibling onto the right node), so the next level no longer contains it
and no further entry is pushed. -/
theorem proof_length_counterexample :
    (Tree.new [⟨1⟩, ⟨2⟩, ⟨3⟩, ⟨4⟩]).prove ⟨2⟩ = Except.ok [Node.val 1] ∧
    partnerLevels (ceilLog2 (Tree.new [⟨1⟩, ⟨2⟩, ⟨3⟩, ⟨4⟩]).leaves.length)
      (Tree.new [⟨1⟩, ⟨2⟩, ⟨3⟩, ⟨4⟩]).leaves.length 1 = 2 ∧
    ([Node.val 1] : List Node).length ≠ 2 :=
  ⟨rfl, rfl, by decide⟩

/-- C8 amended: for a tree with at least two leaves, prove succeeds and
the proof length is at most the ceiling of the base two logarithm of
the leaf count; the proof loop runs exactly that many levels, and that
number is exactly the height of the carry-up reduction: iterating the
level reduction that many times from the bottom level leaves exactly
one node, and fewer iterations leave more than one. The proof length
can be strictly smaller than the number of levels at which the proved
node actually had a partner (see the counterexample). -/
theorem proof_length_bound (t : Tree) (leaf : Leaf) (h : 2 ≤ t.leaves.length) :
    (∃ p, t.prove leaf = Except.ok p ∧ p.length ≤ ceilLog2 t.leaves.length) ∧
    (hashLevel^[ceilLog2 t.leaves.length]
        (t.leaves.map (fun leaf => Node.val leaf.value))).length = 1 ∧
    ∀ j, j < ceilLog2 t.leaves.length →
      1 < (hashLevel^[j] (t.leaves.map (fun leaf => Node.val leaf.value))).length := by
  have hlen0 : t.leaves.length ≠ 0 := by omega
  have hlen1 : t.leaves.length ≠ 1 := by omega
  have hpos : 1 ≤ t.leaves.length := by omega
  refine ⟨?_, ?_, ?_⟩
  · refine ⟨proveLoop (ceilLog2 t.leaves.length)
      (t.leaves.map (fun leaf => Node.val leaf.value)) (Node.val leaf.value) [], ?_, ?_⟩
    · unfold Tree.prove
      simp only [List.length_map]
      rw [if_neg hlen0, if_neg hlen1]
    · calc (proveLoop (ceilLog2 t.leaves.length)
            (t.leaves.map (fun leaf => Node.val leaf.value)) (Node.val leaf.value)
            []).length
          ≤ ([] : List Node).length + ceilLog2 t.leaves.length := proveLoop_length _ _ _ _
        _ = ceilLog2 t.leaves.length := by simp
  · rw [hashLevel_iterate_length, List.length_map]
    rw [ceilHalfIter_eq_one_iff _ _ hpos]
    exact (ceilLog2_le_iff (ceilLog2 t.leaves.length) t.leaves.length hpos).mp le_rfl
  · intro j hj
    rw [hashLevel_iterate_length, List.length_map]
    have h1 : 1 ≤ ceilHalfIter j t.leaves.length := ceilHalfIter_pos j _ hpos
    have h2 : ceilHalfIter j t.leaves.length ≠ 1 := by
      intro hone
      have := (ceilHalfIter_eq_one_iff j _ hpos).mp hone
      have := (ceilLog2_le_iff j t.leaves.length hpos).mpr this
      omega
    omega

/-- Witness for C8 amended at the two-leaf tree [1, 2] and the leaf
1. -/
theorem proof_length_bound_witness :
    (∃ p, (Tree.new [⟨1⟩, ⟨2⟩]).prove ⟨1⟩ = Except.ok p ∧
      p.length ≤ ceilLog2 (Tree.new [⟨1⟩, ⟨2⟩]).leaves.length) ∧
    (hashLevel^[ceilLog2 (Tree.new [⟨1⟩, ⟨2⟩]).leaves.length]
        ((Tree.new [⟨1⟩, ⟨2⟩]).leaves.map (fun leaf => Node.val leaf.value))).length = 1 ∧
    ∀ j, j < ceilLog2 (Tree.new [⟨1⟩, ⟨2⟩]).leaves.length →
      1 < (hashLevel^[j]
        ((Tree.new [⟨1⟩, ⟨2⟩]).leaves.map (fun leaf => Node.val leaf.value))).length :=
  proof_length_bound (Tree.new [⟨1⟩, ⟨2⟩]) ⟨1⟩ (by decide)

/-- C9: on every tree with at least one leaf, prove returns a node list
without failing, for every argument leaf, present in the tree or not:
the sibling lookup returns undefined outside the array bounds and the
update step is guarded on it, so no level ever faults. -/
theorem prove_never_fails (t : Tree) (leaf : Leaf) (h : t.leaves ≠ []) :
    ∃ p, t.prove leaf = Except.ok p :=
  prove_ok t leaf h

/-- Witness for C9 at the two-leaf tree [1, 2] and the leaf 99, which
is not present in the tree. -/
theorem prove_never_fails_witness :
    ∃ p, (Tree.new [⟨1⟩, ⟨2⟩]).prove ⟨99⟩ = Except.ok p :=
  prove_never_fails (Tree.new [⟨1⟩, ⟨2⟩]) ⟨99⟩ (by decide)

/-- C10: after construction the stored leaves field and the caller
array hold the same list (the in-place sort returns the array it was
called on), and that list is a permutation of the input list, so the
multiset of leaves is unchanged; under the modelled boolean-comparator
sort semantics the permutation is in fact the identity. -/
theorem constructor_shares_sorted_input (ls : List Leaf) :
    (Tree.newShared ls).1.leaves = (Tree.newShared ls).2 ∧
    List.Perm (Tree.newShared ls).2 ls ∧
    (Tree.new ls).leaves = jsSortGte ls :=
  ⟨rfl, List.Perm.refl _, rfl⟩

end MerkleSpec
